import Mathlib

/-!
# Verification of the Game of Life grid model

A shallow embedding of the core of src/game_of_life.py: the toroidal
Conway Game-of-Life transition (GameState.next_generation and
GameState._count_neighbors) and the singleton configuration (GameConfig).

The grid mirrors the numpy array state of shape (n_cells_x, n_cells_y):
it is a list of columns, indexed first by x then by y, holding 0/1 cell
values exactly as the Python code does. Python's modulo on a positive
divisor agrees with Lean's Int.emod, so neighbor wraparound is embedded
with Int arithmetic. The imperative loop of next_generation (copy the
array, then write selected cells while reading only the old array) is
embedded as a fold over the same iteration order, writing with List.set.
-/

namespace GameOfLife

/-- A grid is a list of columns of 0/1 cell values, indexed as state[x, y]
in the source: outer index x (column), inner index y (row). -/
abbrev Grid := List (List Nat)

/-- Reads state[x, y]: out-of-range reads default to 0 (the code never
performs one: every access is wrapped modulo the dimensions). -/
def gget (state : Grid) (x y : Nat) : Nat :=
  (state.getD x []).getD y 0

/-- Writes state[x, y] := v, embedding the numpy element assignment.
List.set is the identity out of range, matching that the code only ever
writes in range. -/
def setCell (state : Grid) (x y v : Nat) : Grid :=
  state.set x ((state.getD x []).set y v)

/-- The 8 Moore-neighborhood offsets, in the order of the comprehension
for i in [-1, 0, 1] for j in [-1, 0, 1] if not (i == 0 and j == 0). -/
def neighborOffsets : List (Int × Int) :=
  [(-1, -1), (-1, 0), (-1, 1), (0, -1), (0, 1), (1, -1), (1, 0), (1, 1)]

/-- Wraps a coordinate: ((a + d) mod n) with Python semantics (the result
of Int.emod for a positive divisor is nonnegative, as in Python). -/
def wrap (n a : Nat) (d : Int) : Nat :=
  (((a : Int) + d) % (n : Int)).toNat

/-- The 8 wrapped neighbor coordinates of (x, y) on a W x H torus,
embedding (x + i) % config.n_cells_x and (y + j) % config.n_cells_y. -/
def neighborCoords (W H x y : Nat) : List (Nat × Nat) :=
  neighborOffsets.map (fun p => (wrap W x p.1, wrap H y p.2))

/-- GameState._count_neighbors: sums the cell values at the 8 wrapped
neighbor coordinates. -/
def countNeighbors (W H : Nat) (state : Grid) (x y : Nat) : Nat :=
  ((neighborCoords W H x y).map (fun c => gget state c.1 c.2)).sum

/-- One iteration of the inner loop body of next_generation: reads cell
(x, y) and its neighbor count from the old state, conditionally writes
cell (x, y) of the new state. -/
def stepCell (W H : Nat) (old st : Grid) (x y : Nat) : Grid :=
  if gget old x y = 1 ∧
      (countNeighbors W H old x y < 2 ∨ countNeighbors W H old x y > 3) then
    setCell st x y 0
  else if gget old x y = 0 ∧ countNeighbors W H old x y = 3 then
    setCell st x y 1
  else st

/-- GameState.next_generation: new_state starts as a copy of the current
state; the loop for y in range(n_cells_y): for x in range(n_cells_x)
conditionally rewrites each cell of new_state from the old state; the
grid is then replaced wholesale by new_state. -/
def nextGeneration (W H : Nat) (state : Grid) : Grid :=
  (List.range H).foldl
    (fun st y => (List.range W).foldl (fun st2 x => stepCell W H state st2 x y) st)
    state

/-- The per-cell transition rule as stated by the spec: ALIVE with
neighbor count below 2 or above 3 dies, DEAD with count 3 is born,
otherwise the state is unchanged. -/
def cellRule (c n : Nat) : Nat :=
  if c = 1 ∧ (n < 2 ∨ n > 3) then 0
  else if c = 0 ∧ n = 3 then 1
  else c

/-- Modelled from the spec: the two-buffer reference computation, in
which every cell of the result is computed by the transition rule from
the same read-only prior grid. Used to state the snapshot claim as a
refinement of nextGeneration. -/
def nextGenerationTwoBuffer (W H : Nat) (state : Grid) : Grid :=
  (List.range W).map (fun x =>
    (List.range H).map (fun y =>
      cellRule (gget state x y) (countNeighbors W H state x y)))

/-- Well-formedness of a grid of dimensions W x H: W columns, each of
height H (the shape of the numpy array). -/
def WF (W H : Nat) (state : Grid) : Prop :=
  state.length = W ∧ ∀ x, x < W → (state.getD x []).length = H

/-- A grid of dimensions W x H is binary when every in-range cell value
is 0 or 1, as holds for every grid the program constructs (np.random.choice
of [0, 1], and next_generation only writes 0 or 1). -/
def Binary (W H : Nat) (state : Grid) : Prop :=
  ∀ x, x < W → ∀ y, y < H → gget state x y ≤ 1

instance decidableWF (W H : Nat) (state : Grid) : Decidable (WF W H state) := by
  unfold WF
  infer_instance

instance decidableBinary (W H : Nat) (state : Grid) :
    Decidable (Binary W H state) := by
  unfold Binary
  infer_instance

/-- The configuration record built by GameConfig.__init__: window size
800 x 600, grid 40 x 30 cells, derived cell size. -/
structure GameConfigData where
  width : Nat
  height : Nat
  n_cells_x : Nat
  n_cells_y : Nat
  cell_width : Nat
  cell_height : Nat
deriving DecidableEq

/-- The one configuration value GameConfig.__init__ can build: all fields
are hardcoded constants. -/
def defaultGameConfig : GameConfigData :=
  ⟨800, 600, 40, 30, 800 / 40, 600 / 30⟩

/-- GameConfig.__init__ as a state transformer on the class attribute
GameConfig._instance: raises when an instance already exists (leaving it
in place), otherwise builds the hardcoded configuration and installs it. -/
def gameConfigInit (inst : Option GameConfigData) :
    Except String GameConfigData × Option GameConfigData :=
  match inst with
  | some c => (Except.error "This class is a singleton!", some c)
  | none => (Except.ok defaultGameConfig, some defaultGameConfig)

/-- GameConfig.get_instance: constructs the singleton when absent, then
returns GameConfig._instance. -/
def getInstance (inst : Option GameConfigData) :
    GameConfigData × Option GameConfigData :=
  match inst with
  | some c => (c, some c)
  | none => (defaultGameConfig, some defaultGameConfig)

/-! ## Helper lemmas on getD and set -/

theorem getD_set_self {α : Type} (l : List α) (n : Nat) (a d : α)
    (h : n < l.length) : (l.set n a).getD n d = a := by
  induction l generalizing n with
  | nil => simp at h
  | cons x xs ih =>
    cases n with
    | zero => rfl
    | succ m =>
      simp only [List.set_cons_succ, List.getD_cons_succ]
      exact ih m (by simpa using h)

theorem getD_set_ne {α : Type} (l : List α) (n m : Nat) (a d : α)
    (h : n ≠ m) : (l.set n a).getD m d = l.getD m d := by
  induction l generalizing n m with
  | nil => rfl
  | cons x xs ih =>
    cases n with
    | zero =>
      cases m with
      | zero => exact absurd rfl h
      | succ k => rfl
    | succ n' =>
      cases m with
      | zero => rfl
      | succ k =>
        simp only [List.set_cons_succ, List.getD_cons_succ]
        exact ih n' k (by omega)

theorem WF_setCell {W H : Nat} {st : Grid} (hwf : WF W H st) (x y v : Nat)
    (hx : x < W) : WF W H (setCell st x y v) := by
  obtain ⟨hlen, hcol⟩ := hwf
  refine ⟨by simp [setCell, hlen], ?_⟩
  intro x' hx'
  by_cases hxx : x = x'
  · subst hxx
    rw [setCell, getD_set_self st x _ [] (by omega)]
    rw [List.length_set]
    exact hcol x hx
  · rw [setCell, getD_set_ne st x x' _ [] hxx]
    exact hcol x' hx'

theorem gget_setCell_self {W H : Nat} {st : Grid} (hwf : WF W H st)
    {x y : Nat} (v : Nat) (hx : x < W) (hy : y < H) :
    gget (setCell st x y v) x y = v := by
  obtain ⟨hlen, hcol⟩ := hwf
  rw [gget, setCell, getD_set_self st x _ [] (by omega)]
  exact getD_set_self _ y v 0 (by rw [hcol x hx]; omega)

theorem gget_setCell_ne (st : Grid) (x y v x' y' : Nat) (hx : x < st.length)
    (h : ¬(x' = x ∧ y' = y)) :
    gget (setCell st x y v) x' y' = gget st x' y' := by
  by_cases hxx : x = x'
  · subst hxx
    have hy : y ≠ y' := fun hc => h ⟨rfl, hc.symm⟩
    rw [gget, gget, setCell, getD_set_self st _ _ [] hx,
      getD_set_ne _ y y' v 0 hy]
  · rw [gget, gget, setCell, getD_set_ne st x x' _ [] hxx]

/-! ## Behaviour of one loop body iteration -/

theorem WF_stepCell {W H : Nat} (old : Grid) {st : Grid} (hwf : WF W H st)
    {x y : Nat} (hx : x < W) : WF W H (stepCell W H old st x y) := by
  unfold stepCell
  split
  · exact WF_setCell hwf x y 0 hx
  · split
    · exact WF_setCell hwf x y 1 hx
    · exact hwf

theorem gget_stepCell_ne {W H : Nat} (old st : Grid) (x y x' y' : Nat)
    (hx : x < st.length) (h : ¬(x' = x ∧ y' = y)) :
    gget (stepCell W H old st x y) x' y' = gget st x' y' := by
  unfold stepCell
  split
  · exact gget_setCell_ne st x y 0 x' y' hx h
  · split
    · exact gget_setCell_ne st x y 1 x' y' hx h
    · rfl

theorem gget_stepCell_self {W H : Nat} {old st : Grid} (hwf : WF W H st)
    {x y : Nat} (hx : x < W) (hy : y < H)
    (hagree : gget st x y = gget old x y) :
    gget (stepCell W H old st x y) x y =
      cellRule (gget old x y) (countNeighbors W H old x y) := by
  unfold stepCell cellRule
  by_cases h1 : gget old x y = 1 ∧
      (countNeighbors W H old x y < 2 ∨ countNeighbors W H old x y > 3)
  · simp only [if_pos h1]
    exact gget_setCell_self hwf 0 hx hy
  · simp only [if_neg h1]
    by_cases h2 : gget old x y = 0 ∧ countNeighbors W H old x y = 3
    · simp only [if_pos h2]
      exact gget_setCell_self hwf 1 hx hy
    · simp only [if_neg h2]
      exact hagree

/-! ## The write-once invariant of the generation loop -/

theorem innerFold_spec {W H : Nat} (old : Grid) (y : Nat) (hy : y < H) :
    ∀ (k : Nat), k ≤ W → ∀ (st : Grid), WF W H st →
      (∀ x, x < W → gget st x y = gget old x y) →
      WF W H ((List.range k).foldl (fun s x => stepCell W H old s x y) st) ∧
      (∀ x' y', (y' ≠ y ∨ k ≤ x') →
        gget ((List.range k).foldl (fun s x => stepCell W H old s x y) st)
            x' y' = gget st x' y') ∧
      (∀ x', x' < k →
        gget ((List.range k).foldl (fun s x => stepCell W H old s x y) st)
            x' y = cellRule (gget old x' y) (countNeighbors W H old x' y)) := by
  intro k
  induction k with
  | zero =>
    intro _ st hwf _
    exact ⟨by simpa using hwf, fun x' y' _ => rfl, fun x' h => absurd h (by omega)⟩
  | succ k ih =>
    intro hk st hwf hagree
    obtain ⟨ihwf, ihother, ihdone⟩ := ih (by omega) st hwf hagree
    have hxW : k < W := by omega
    have hfold : (List.range (k + 1)).foldl (fun s x => stepCell W H old s x y) st =
        stepCell W H old
          ((List.range k).foldl (fun s x => stepCell W H old s x y) st) k y := by
      rw [List.range_succ, List.foldl_append, List.foldl_cons, List.foldl_nil]
    rw [hfold]
    refine ⟨WF_stepCell old ihwf hxW, ?_, ?_⟩
    · intro x' y' hor
      have hne : ¬(x' = k ∧ y' = y) := by
        rcases hor with h | h
        · exact fun hc => h hc.2
        · exact fun hc => by omega
      rw [gget_stepCell_ne old _ k y x' y' (by rw [ihwf.1]; omega) hne]
      refine ihother x' y' ?_
      rcases hor with h | h
      · exact Or.inl h
      · exact Or.inr (by omega)
    · intro x' hx'
      by_cases hxk : x' = k
      · subst hxk
        refine gget_stepCell_self ihwf hxW hy ?_
        rw [ihother x' y (Or.inr le_rfl)]
        exact hagree x' hxW
      · have hne : ¬(x' = k ∧ y = y) := fun hc => hxk hc.1
        rw [gget_stepCell_ne old _ k y x' y (by rw [ihwf.1]; omega) hne]
        exact ihdone x' (by omega)

theorem outerFold_spec {W H : Nat} (old : Grid) :
    ∀ (k : Nat), k ≤ H → ∀ (st : Grid), WF W H st →
      (∀ x' y', gget st x' y' = gget old x' y') →
      WF W H ((List.range k).foldl
        (fun s y => (List.range W).foldl
          (fun s2 x => stepCell W H old s2 x y) s) st) ∧
      (∀ x' y', k ≤ y' →
        gget ((List.range k).foldl
          (fun s y => (List.range W).foldl
            (fun s2 x => stepCell W H old s2 x y) s) st) x' y' =
          gget st x' y') ∧
      (∀ x' y', x' < W → y' < k →
        gget ((List.range k).foldl
          (fun s y => (List.range W).foldl
            (fun s2 x => stepCell W H old s2 x y) s) st) x' y' =
          cellRule (gget old x' y') (countNeighbors W H old x' y')) := by
  intro k
  induction k with
  | zero =>
    intro _ st hwf _
    exact ⟨by simpa using hwf, fun x' y' _ => rfl,
      fun x' y' _ h => absurd h (by omega)⟩
  | succ k ih =>
    intro hk st hwf hagree
    obtain ⟨ihwf, ihother, ihdone⟩ := ih (by omega) st hwf hagree
    have hyH : k < H := by omega
    have hfold : (List.range (k + 1)).foldl
        (fun s y => (List.range W).foldl
          (fun s2 x => stepCell W H old s2 x y) s) st =
        (List.range W).foldl (fun s2 x => stepCell W H old s2 x k)
          ((List.range k).foldl
            (fun s y => (List.range W).foldl
              (fun s2 x => stepCell W H old s2 x y) s) st) := by
      rw [List.range_succ, List.foldl_append, List.foldl_cons, List.foldl_nil]
    rw [hfold]
    have hrowk : ∀ x, x < W →
        gget ((List.range k).foldl
          (fun s y => (List.range W).foldl
            (fun s2 x => stepCell W H old s2 x y) s) st) x k = gget old x k := by
      intro x hx
      rw [ihother x k le_rfl]
      exact hagree x k
    obtain ⟨jwf, jother, jdone⟩ := innerFold_spec old k hyH W le_rfl _ ihwf hrowk
    refine ⟨jwf, ?_, ?_⟩
    · intro x' y' hy'
      rw [jother x' y' (Or.inl (by omega))]
      exact ihother x' y' (by omega)
    · intro x' y' hx' hy'
      by_cases hyk : y' = k
      · subst hyk
        exact jdone x' hx'
      · rw [jother x' y' (Or.inl hyk)]
        exact ihdone x' y' hx' (by omega)

/-- Every cell of the next generation is the transition rule applied to
the prior grid: the central pointwise description of next_generation. -/
theorem nextGeneration_gget {W H : Nat} {g : Grid} (hwf : WF W H g)
    {x y : Nat} (hx : x < W) (hy : y < H) :
    gget (nextGeneration W H g) x y =
      cellRule (gget g x y) (countNeighbors W H g x y) :=
  (outerFold_spec g H le_rfl g hwf (fun _ _ => rfl)).2.2 x y hx hy

/-- The generation step preserves the grid shape. -/
theorem WF_nextGeneration {W H : Nat} {g : Grid} (hwf : WF W H g) :
    WF W H (nextGeneration W H g) :=
  (outerFold_spec g H le_rfl g hwf (fun _ _ => rfl)).1

/-! ## Wraparound arithmetic -/

theorem wrap_lt (n a : Nat) (d : Int) (h : 0 < n) : wrap n a d < n := by
  rw [wrap]
  have h1 : 0 ≤ ((a : Int) + d) % (n : Int) := Int.emod_nonneg _ (by omega)
  have h2 : ((a : Int) + d) % (n : Int) < (n : Int) := Int.emod_lt_of_pos _ (by omega)
  omega

theorem wrap_zero_sub_one {W : Nat} (hW : 0 < W) : wrap W 0 (-1) = W - 1 := by
  rw [wrap]
  simp only [Nat.cast_zero]
  have h1 : ((0 : Int) + -1) % (W : Int) = (W : Int) - 1 := by
    have h2 : ((0 : Int) + -1) = ((W : Int) - 1) + (-1) * (W : Int) := by ring
    rw [h2, Int.add_mul_emod_self]
    exact Int.emod_eq_of_lt (by omega) (by omega)
  rw [h1]
  omega

theorem wrap_of_lt {H y : Nat} (hy : y < H) : wrap H y 0 = y := by
  rw [wrap]
  have h1 : ((y : Int) + 0) % (H : Int) = (y : Int) := by
    rw [Int.add_zero]
    exact Int.emod_eq_of_lt (by omega) (by omega)
  rw [h1]
  omega

/-! ## Bridging getD indexing with getElem indexing -/

theorem getD_eq_getElem {α : Type} (l : List α) (d : α) {n : Nat}
    (h : n < l.length) : l.getD n d = l[n] := by
  induction l generalizing n with
  | nil => simp at h
  | cons x xs ih =>
    cases n with
    | zero => rfl
    | succ m => simpa using ih (by simpa using h)

theorem gget_eq_getElem (g : Grid) (x y : Nat) (h1 : x < g.length)
    (h2 : y < g[x].length) : gget g x y = g[x][y] := by
  rw [gget, getD_eq_getElem g [] h1, getD_eq_getElem (g[x]) 0 h2]

/-! ## Concrete patterns used by the pattern claims -/

/-- A horizontal 3-cell blinker on the program's own 40 x 30 grid: cells
(18, 15), (19, 15), (20, 15) are ALIVE, every other cell is DEAD. -/
def blinkerHorizontal : Grid :=
  (List.range 40).map (fun x =>
    (List.range 30).map (fun y =>
      if y = 15 ∧ 18 ≤ x ∧ x ≤ 20 then 1 else 0))

/-- The vertical 3-cell line centered on the same middle cell (19, 15):
cells (19, 14), (19, 15), (19, 16) are ALIVE, every other cell is DEAD. -/
def blinkerVertical : Grid :=
  (List.range 40).map (fun x =>
    (List.range 30).map (fun y =>
      if x = 19 ∧ 14 ≤ y ∧ y ≤ 16 then 1 else 0))

/-- C1: for every well-formed grid and every cell (x, y), next_generation
sets the new state by the standard rule evaluated on the pre-transition
grid: ALIVE with live-neighbor count below 2 or above 3 becomes DEAD,
DEAD with live-neighbor count 3 becomes ALIVE, and in every other case
the state is unchanged. -/
theorem next_generation_standard_rule (W H : Nat) (g : Grid)
    (hwf : WF W H g) (x y : Nat) (hx : x < W) (hy : y < H) :
    (gget g x y = 1 →
      (countNeighbors W H g x y < 2 ∨ countNeighbors W H g x y > 3) →
      gget (nextGeneration W H g) x y = 0) ∧
    (gget g x y = 0 → countNeighbors W H g x y = 3 →
      gget (nextGeneration W H g) x y = 1) ∧
    (¬(gget g x y = 1 ∧
        (countNeighbors W H g x y < 2 ∨ countNeighbors W H g x y > 3)) →
      ¬(gget g x y = 0 ∧ countNeighbors W H g x y = 3) →
      gget (nextGeneration W H g) x y = gget g x y) := by
  have hmain := nextGeneration_gget hwf hx hy
  refine ⟨?_, ?_, ?_⟩
  · intro h1 h2
    rw [hmain, cellRule, if_pos ⟨h1, h2⟩]
  · intro h1 h2
    have hne : ¬(gget g x y = 1 ∧
        (countNeighbors W H g x y < 2 ∨ countNeighbors W H g x y > 3)) := by
      rintro ⟨hc, _⟩
      omega
    rw [hmain, cellRule, if_neg hne, if_pos ⟨h1, h2⟩]
  · intro h1 h2
    rw [hmain, cellRule, if_neg h1, if_neg h2]

/-- C1 witness: on a 3 x 3 grid whose only ALIVE cell is (0, 0), that
cell has 0 live neighbors and dies. -/
theorem next_generation_standard_rule_witness :
    gget (nextGeneration 3 3 [[1, 0, 0], [0, 0, 0], [0, 0, 0]]) 0 0 = 0 :=
  (next_generation_standard_rule 3 3 [[1, 0, 0], [0, 0, 0], [0, 0, 0]]
    (by decide) 0 0 (by decide) (by decide)).1 (by decide) (by decide)

/-- C2: next_generation computes every new cell from the read-only prior
grid and replaces the grid wholesale, so its result equals the two-buffer
reference computation in which all cells are evaluated against the same
prior state. -/
theorem next_generation_snapshot (W H : Nat) (g : Grid) (hwf : WF W H g) :
    nextGeneration W H g = nextGenerationTwoBuffer W H g := by
  have hwf2 := WF_nextGeneration hwf
  refine List.ext_getElem ?_ ?_
  · rw [hwf2.1]
    simp [nextGenerationTwoBuffer]
  · intro x h1 h2
    have hx : x < W := hwf2.1 ▸ h1
    refine List.ext_getElem ?_ ?_
    · have hcol : (nextGeneration W H g)[x].length = H := by
        rw [← getD_eq_getElem _ [] h1]
        exact hwf2.2 x hx
      rw [hcol]
      simp [nextGenerationTwoBuffer]
    · intro y hy1 hy2
      have hy : y < H := by
        have hcol : (nextGeneration W H g)[x].length = H := by
          rw [← getD_eq_getElem _ [] h1]
          exact hwf2.2 x hx
        omega
      rw [← gget_eq_getElem _ x y h1 hy1, nextGeneration_gget hwf hx hy]
      simp [nextGenerationTwoBuffer, hx, hy]

/-- C2 witness: the snapshot equality at a concrete well-formed grid. -/
theorem next_generation_snapshot_witness :
    nextGeneration 2 2 [[1, 0], [0, 1]] =
      nextGenerationTwoBuffer 2 2 [[1, 0], [0, 1]] :=
  next_generation_snapshot 2 2 [[1, 0], [0, 1]] (by decide)

/-- C3: every neighbor coordinate is computed as ((x + dx) mod W,
(y + dy) mod H), so every lookup is in bounds for positive dimensions,
and a cell on the left edge (x = 0) counts the cell on the opposite
right edge (W - 1) among its neighbors. -/
theorem count_neighbors_toroidal (W H x y : Nat) (g : Grid)
    (hW : 0 < W) (hH : 0 < H) :
    countNeighbors W H g x y =
      ((neighborCoords W H x y).map (fun c => gget g c.1 c.2)).sum ∧
    (∀ c ∈ neighborCoords W H x y, c.1 < W ∧ c.2 < H) ∧
    (x = 0 → y < H → (W - 1, y) ∈ neighborCoords W H x y) := by
  refine ⟨rfl, ?_, ?_⟩
  · intro c hc
    rw [neighborCoords] at hc
    obtain ⟨p, _, hp⟩ := List.mem_map.mp hc
    rw [← hp]
    exact ⟨wrap_lt W x p.1 hW, wrap_lt H y p.2 hH⟩
  · intro hx0 hyH
    subst hx0
    simp only [neighborCoords, neighborOffsets, List.map_cons, List.map_nil]
    refine List.mem_cons.mpr (Or.inr (List.mem_cons.mpr (Or.inl ?_)))
    rw [wrap_zero_sub_one hW, wrap_of_lt hyH]

/-- C3 witness: on a 5 x 5 grid, all 8 neighbor coordinates of (0, 2) are
in bounds and include the opposite-edge cell (4, 2). -/
theorem count_neighbors_toroidal_witness :
    (∀ c ∈ neighborCoords 5 5 0 2, c.1 < 5 ∧ c.2 < 5) ∧
    (5 - 1, 2) ∈ neighborCoords 5 5 0 2 :=
  ⟨(count_neighbors_toroidal 5 5 0 2 [] (by decide) (by decide)).2.1,
   (count_neighbors_toroidal 5 5 0 2 [] (by decide) (by decide)).2.2 rfl
     (by decide)⟩

/-- C4: the neighbor count is the sum of the 0/1 cell values at the 8
Moore-neighborhood coordinates (the offset list excludes (0, 0), the cell
itself), and for a binary grid the result lies in [0, 8] (it is a Nat,
hence at least 0). -/
theorem count_neighbors_in_range (W H : Nat) (g : Grid)
    (hW : 0 < W) (hH : 0 < H) (hbin : Binary W H g) (x y : Nat) :
    countNeighbors W H g x y =
      ((neighborCoords W H x y).map (fun c => gget g c.1 c.2)).sum ∧
    ((0, 0) : Int × Int) ∉ neighborOffsets ∧
    countNeighbors W H g x y ≤ 8 := by
  refine ⟨rfl, by decide, ?_⟩
  have h1 := hbin (wrap W x (-1)) (wrap_lt W x (-1) hW)
    (wrap H y (-1)) (wrap_lt H y (-1) hH)
  have h2 := hbin (wrap W x (-1)) (wrap_lt W x (-1) hW)
    (wrap H y 0) (wrap_lt H y 0 hH)
  have h3 := hbin (wrap W x (-1)) (wrap_lt W x (-1) hW)
    (wrap H y 1) (wrap_lt H y 1 hH)
  have h4 := hbin (wrap W x 0) (wrap_lt W x 0 hW)
    (wrap H y (-1)) (wrap_lt H y (-1) hH)
  have h5 := hbin (wrap W x 0) (wrap_lt W x 0 hW)
    (wrap H y 1) (wrap_lt H y 1 hH)
  have h6 := hbin (wrap W x 1) (wrap_lt W x 1 hW)
    (wrap H y (-1)) (wrap_lt H y (-1) hH)
  have h7 := hbin (wrap W x 1) (wrap_lt W x 1 hW)
    (wrap H y 0) (wrap_lt H y 0 hH)
  have h8 := hbin (wrap W x 1) (wrap_lt W x 1 hW)
    (wrap H y 1) (wrap_lt H y 1 hH)
  simp only [countNeighbors, neighborCoords, neighborOffsets, List.map_cons,
    List.map_nil, List.sum_cons, List.sum_nil]
  omega

/-- C4 witness: on the all-ALIVE 2 x 2 grid every cell has count at most
8 (here each neighbor slot wraps onto a live cell). -/
theorem count_neighbors_in_range_witness :
    countNeighbors 2 2 [[1, 1], [1, 1]] 0 0 =
      ((neighborCoords 2 2 0 0).map
        (fun c => gget [[1, 1], [1, 1]] c.1 c.2)).sum ∧
    ((0, 0) : Int × Int) ∉ neighborOffsets ∧
    countNeighbors 2 2 [[1, 1], [1, 1]] 0 0 ≤ 8 :=
  count_neighbors_in_range 2 2 [[1, 1], [1, 1]] (by decide) (by decide)
    (by decide) 0 0

/-- C6: the grid dimensions fixed by the configuration (40 x 30) are
unchanged by any number of next_generation calls: the state keeps the
construction shape after every iterate. -/
theorem dimensions_invariant (g : Grid)
    (hwf : WF defaultGameConfig.n_cells_x defaultGameConfig.n_cells_y g)
    (n : Nat) :
    WF defaultGameConfig.n_cells_x defaultGameConfig.n_cells_y
      ((fun s => nextGeneration defaultGameConfig.n_cells_x
        defaultGameConfig.n_cells_y s)^[n] g) := by
  induction n with
  | zero => simpa using hwf
  | succ k ih =>
    rw [Function.iterate_succ_apply']
    exact WF_nextGeneration ih

/-- C6 witness: the all-DEAD 40 x 30 grid keeps its shape after one step. -/
theorem dimensions_invariant_witness :
    WF defaultGameConfig.n_cells_x defaultGameConfig.n_cells_y
      ((fun s => nextGeneration defaultGameConfig.n_cells_x
        defaultGameConfig.n_cells_y s)^[1]
        (List.replicate 40 (List.replicate 30 0))) :=
  dimensions_invariant (List.replicate 40 (List.replicate 30 0))
    (by decide) 1

set_option maxRecDepth 100000 in
/-- C7: on the program's toroidal 40 x 30 grid, one next_generation call
turns the horizontal 3-cell blinker centered at (19, 15) into exactly the
vertical 3-cell line centered on the same middle cell. -/
theorem blinker_oscillates :
    nextGeneration 40 30 blinkerHorizontal = blinkerVertical := by decide

/-- C9: next_generation and _count_neighbors are deterministic: equal
input grids yield an equal next grid and equal neighbor counts. -/
theorem next_generation_deterministic (W H : Nat) (g1 g2 : Grid)
    (h : g1 = g2) :
    nextGeneration W H g1 = nextGeneration W H g2 ∧
    ∀ x y, countNeighbors W H g1 x y = countNeighbors W H g2 x y := by
  subst h
  exact ⟨rfl, fun _ _ => rfl⟩

/-- C9 witness: determinism instantiated at a concrete grid. -/
theorem next_generation_deterministic_witness :
    nextGeneration 1 1 [[0]] = nextGeneration 1 1 [[0]] :=
  (next_generation_deterministic 1 1 [[0]] [[0]] rfl).1

/-- C10: GameConfig is a singleton: get_instance always returns the same
instance (a second call returns the first call's instance and leaves the
stored instance unchanged), and calling the constructor when an instance
already exists raises the singleton exception while leaving the existing
instance unchanged. -/
theorem game_config_singleton :
    (∀ s : Option GameConfigData,
      (getInstance (getInstance s).2).1 = (getInstance s).1 ∧
      (getInstance (getInstance s).2).2 = (getInstance s).2) ∧
    (∀ c : GameConfigData,
      gameConfigInit (some c) =
        (Except.error "This class is a singleton!", some c)) := by
  constructor
  · intro s
    cases s with
    | none => exact ⟨rfl, rfl⟩
    | some c => exact ⟨rfl, rfl⟩
  · intro c
    rfl

end GameOfLife
